import Mathlib

/-!
Shallow embedding of the openribcage A2A client core (Go) in Lean 4:
the AgentCard discoverer (`BuildAgentCardURL`, `fetchWithRetry`, `Validate`),
the protocol client (`SendTask`, `StreamTask` response handling), and the
agent registry (`Register`, `Get`, `FindByCapability`, `cleanupStaleAgents`).

Strings are embedded as `List Char` where character-level processing matters
(URLs, SSE lines) and as `String` for plain identifiers compared only for
equality.  Go's `net/url.Parse`/`URL.String` are modelled for URLs without
userinfo and percent-escaping (scheme extraction, `//authority`, path, query,
fragment; parse failure on control characters or spaces in the host), which
covers every URL the embedded operations handle.  Time is modelled as `Int`
nanoseconds, as in Go's `time.Duration`/`time.Time.Sub`.
-/

set_option autoImplicit false
set_option linter.unusedVariables false

deriving instance DecidableEq for Except

namespace Openribcage

/-! ### Go `strings` helpers -/

/-- ASCII whitespace as recognised by Go's `strings.TrimSpace`
(Unicode whitespace beyond ASCII is not modelled). -/
def isGoSpace (c : Char) : Bool :=
  c == ' ' || c == '\t' || c == '\n' || c == '\r' || c.val == 11 || c.val == 12

/-- Go `strings.TrimSpace` (ASCII): drop leading and trailing whitespace. -/
def trimSpace (s : List Char) : List Char :=
  ((s.dropWhile isGoSpace).reverse.dropWhile isGoSpace).reverse

/-- Go `strings.TrimSuffix`: remove one trailing occurrence of the suffix. -/
def trimSuffix (s suffix : List Char) : List Char :=
  if suffix.isSuffixOf s then s.take (s.length - suffix.length) else s

/-- ASCII control characters, on which Go's `net/url.Parse` fails. -/
def isCtl (c : Char) : Bool := c.val < 32 || c.val == 127

def isAlphaGo (c : Char) : Bool :=
  ('a' ≤ c && c ≤ 'z') || ('A' ≤ c && c ≤ 'Z')

def isDigitGo (c : Char) : Bool := '0' ≤ c && c ≤ '9'

def toLowerGo (c : Char) : Char :=
  if 'A' ≤ c && c ≤ 'Z' then Char.ofNat (c.toNat + 32) else c

/-! ### Model of Go `net/url` (the fragment used by the discoverer) -/

/-- Scheme extraction of Go `net/url.getScheme`: scan for `:`; a scheme is a
leading run of letters/digits/`+`/`-`/`.` starting with a letter.  `.error ()`
models the "missing protocol scheme" parse error (`:` at position 0);
`.ok none` means the string has no scheme (relative URL). -/
def schemeSplitAux : List Char → List Char → Except Unit (Option (List Char × List Char))
  | _, [] => .ok none
  | acc, c :: t =>
    if isAlphaGo c then schemeSplitAux (acc ++ [c]) t
    else if isDigitGo c || c == '+' || c == '-' || c == '.' then
      if acc = [] then .ok none else schemeSplitAux (acc ++ [c]) t
    else if c == ':' then
      if acc = [] then .error () else .ok (some (acc.map toLowerGo, t))
    else .ok none

def schemeSplit (s : List Char) : Except Unit (Option (List Char × List Char)) :=
  schemeSplitAux [] s

/-- Split a list at the first occurrence of `mark`; `none` when absent. -/
def cutAt (mark : Char) : List Char → List Char × Option (List Char)
  | [] => ([], none)
  | c :: t =>
    if c = mark then ([], some t)
    else
      let r := cutAt mark t
      (c :: r.1, r.2)

/-- The fields of Go's `url.URL` read by the embedded code. -/
structure GoURL where
  scheme : List Char
  host : List Char
  path : List Char
  query : Option (List Char)
  fragment : Option (List Char)
deriving Repr, DecidableEq

/-- After the scheme: `//` introduces an authority (host up to the next `/`),
otherwise everything is path. -/
def splitHostPath (s : List Char) : List Char × List Char :=
  match s with
  | '/' :: '/' :: rest =>
    (rest.takeWhile (fun c => !(c == '/')), rest.dropWhile (fun c => !(c == '/')))
  | other => ([], other)

def urlParseAfterScheme (scheme rest : List Char) : Option GoURL :=
  let fr := cutAt '#' rest
  let qr := cutAt '?' fr.1
  let hp := splitHostPath qr.1
  if hp.1.any (fun c => c == ' ') then none
  else some ⟨scheme, hp.1, hp.2, qr.2, fr.2⟩

/-- Model of Go `net/url.Parse` (no userinfo, no percent-escaping): fails on
control characters, on a leading `:`, and on a space in the host. -/
def urlParse (s : List Char) : Option GoURL :=
  if s.any isCtl then none
  else
    match schemeSplit s with
    | .error _ => none
    | .ok none => urlParseAfterScheme [] s
    | .ok (some (scheme, rest)) => urlParseAfterScheme scheme rest

/-- Model of Go `url.URL.String` for the URLs produced here (no escaping). -/
def urlString (u : GoURL) : List Char :=
  (if u.scheme = [] then [] else u.scheme ++ [':']) ++
  (if u.scheme = [] ∧ u.host = [] then [] else '/' :: '/' :: u.host) ++
  u.path ++
  (match u.query with
   | none => []
   | some q => '?' :: q) ++
  (match u.fragment with
   | none => []
   | some f => '#' :: f)

/-! ### A2A data model (`pkg/a2a/types`) -/

/-- Modelled from the spec: the capability flags object (named booleans
`streaming`, `pushNotifications`, `stateTransitionHistory`).  The registry and
`Validate` reference this capabilities-object form of `AgentCard.Capabilities`,
whose Go struct definition is not among the provided sources. -/
structure AgentCapabilities where
  streaming : Bool
  pushNotifications : Bool
  stateTransitionHistory : Bool
deriving Repr, DecidableEq

/-- `types.Endpoint` (headers map omitted: no embedded operation reads it). -/
structure Endpoint where
  type : String
  url : List Char
  methods : List String
  description : String
deriving Repr, DecidableEq

/-- `types.AgentCard` with the capabilities-object revision; the optional
descriptor fields (authentication, skills, input/output modes, metadata) are
omitted because no embedded operation reads them. -/
structure AgentCard where
  name : String
  description : String
  url : String
  version : String
  capabilities : AgentCapabilities
  endpoints : List Endpoint
deriving Repr, DecidableEq

/-- `types.Agent`; timestamps are `Int` nanoseconds. -/
structure Agent where
  id : String
  name : String
  url : String
  card : Option AgentCard
  status : String
  lastSeen : Int
  discoveredAt : Int
deriving Repr, DecidableEq

def agentStatusOnline : String := "online"
def agentStatusOffline : String := "offline"
def agentStatusError : String := "error"
def agentStatusDiscovering : String := "discovering"

/-- `types.A2AMethods`: the six standard protocol method names. -/
def tasksSend : String := "tasks/send"
def tasksStream : String := "tasks/sendSubscribe"
def tasksStatus : String := "tasks/status"
def tasksCancel : String := "tasks/cancel"
def messageSend : String := "message/send"
def messageStream : String := "message/stream"

/-! ### AgentCard discoverer (`pkg/agentcard`) -/

/-- The well-known discovery path appended by `BuildAgentCardURL`. -/
def wellKnownSuffix : List Char := ("/.well-known/agent.json").data

/-- `BuildAgentCardURL`: trim, default the scheme to `http`, parse, and append
the well-known suffix to the (slash-trimmed) path. -/
def buildAgentCardURL (agentURL : List Char) : List Char :=
  let s := trimSpace agentURL
  if s = [] then []
  else
    let s2 :=
      if ("http://").data.isPrefixOf s || ("https://").data.isPrefixOf s then s
      else ("http://").data ++ s
    match urlParse s2 with
    | none => trimSuffix s2 ['/'] ++ wellKnownSuffix
    | some parsedURL =>
      urlString { parsedURL with path := trimSuffix parsedURL.path ['/'] ++ wellKnownSuffix }

/-- `contains`: membership of a string in a slice. -/
def contains (slice : List String) (item : String) : Bool :=
  slice.any (fun s => s == item)

def validTypes : List String := ["a2a", "streaming", "webhook"]

def validMethods : List String :=
  [tasksSend, tasksStream, tasksStatus, tasksCancel, messageSend, messageStream]

/-- `isValidA2AMethod`. -/
def isValidA2AMethod (method : String) : Bool := contains validMethods method

/-- The loop body of `validateEndpoint` over `endpoint.Methods`: the first
invalid method yields the error. -/
def firstInvalidMethod : List String → Option String
  | [] => none
  | method :: rest =>
    if !(isValidA2AMethod method) then some ("invalid A2A method: " ++ method)
    else firstInvalidMethod rest

/-- `validateEndpoint`: `some` an error message, `none` for success. -/
def validateEndpoint (endpoint : Endpoint) : Option String :=
  if endpoint.url = [] then some "endpoint URL is required"
  else
    match urlParse endpoint.url with
    | none => some "invalid endpoint URL"
    | some parsedURL =>
      if parsedURL.scheme ≠ ("http").data ∧ parsedURL.scheme ≠ ("https").data then
        some "endpoint URL must use http or https scheme"
      else if !(contains validTypes endpoint.type) then
        some ("unsupported endpoint type: " ++ endpoint.type)
      else if endpoint.type = "a2a" then firstInvalidMethod endpoint.methods
      else none

/-- The endpoint loop of `Validate`, carrying the running index used in the
error message. -/
def validateEndpointsFrom : Nat → List Endpoint → Option String
  | _, [] => none
  | i, e :: rest =>
    match validateEndpoint e with
    | some err => some ("invalid endpoint " ++ toString i ++ ": " ++ err)
    | none => validateEndpointsFrom (i + 1) rest

/-- `Validate`: required name and version, then every endpoint must validate. -/
def validate (card : AgentCard) : Option String :=
  if card.name = "" then some "agent name is required"
  else if card.version = "" then some "agent version is required"
  else validateEndpointsFrom 0 card.endpoints

/-! #### `fetchWithRetry` -/

/-- What one HTTP attempt of `fetchWithRetry` observes. -/
inductive HTTPAttempt where
  | transportErr
  | httpResp (status : Nat) (body : List Char)
deriving Repr, DecidableEq

/-- The error kinds produced by `fetchWithRetry`. -/
inductive FetchError where
  | requestFailed
  | notFound
  | unauthorized
  | forbidden
  | httpStatus (status : Nat)
  | failedAfter (attempts : Nat) (last : FetchError)
deriving Repr, DecidableEq

/-- Result of `fetchWithRetry` together with the observable retry behaviour:
`attempts` HTTP attempts were made and `delays` retry-delay waits occurred
(one before every attempt after the first). -/
structure FetchResult where
  result : Except FetchError (List Char)
  attempts : Nat
  delays : Nat
deriving Repr, DecidableEq

/-- The retry loop of `fetchWithRetry`: `total` is the wrapped attempt count
`maxRetries+1`; `remaining` counts loop iterations left; `lastErr` is the
accumulated last error. -/
def fetchFrom (total : Nat) (responses : Nat → HTTPAttempt) :
    Nat → Nat → Option FetchError → FetchResult
  | attempt, 0, lastErr =>
    ⟨.error (.failedAfter total (lastErr.getD .requestFailed)), attempt, attempt - 1⟩
  | attempt, remaining + 1, _ =>
    match responses attempt with
    | .transportErr => fetchFrom total responses (attempt + 1) remaining (some .requestFailed)
    | .httpResp status body =>
      if status = 200 then ⟨.ok body, attempt + 1, attempt⟩
      else if status = 404 then ⟨.error .notFound, attempt + 1, attempt⟩
      else if status = 401 then ⟨.error .unauthorized, attempt + 1, attempt⟩
      else if status = 403 then ⟨.error .forbidden, attempt + 1, attempt⟩
      else if 400 ≤ status ∧ status < 500 then ⟨.error (.httpStatus status), attempt + 1, attempt⟩
      else fetchFrom total responses (attempt + 1) remaining (some (.httpStatus status))

/-- `fetchWithRetry` with `maxRetries` retries (the Go loop runs attempts
`0..maxRetries`); the server's behaviour per attempt is `responses`. -/
def fetchWithRetry (maxRetries : Nat) (responses : Nat → HTTPAttempt) : FetchResult :=
  fetchFrom (maxRetries + 1) responses 0 (maxRetries + 1) none

/-- The `lastErr` value Go assigns for a retryable attempt outcome. -/
def attemptError : HTTPAttempt → FetchError
  | .transportErr => .requestFailed
  | .httpResp status _ => .httpStatus status

/-- A transport failure or a 5xx response: the retryable attempt outcomes. -/
def isServerFailure : HTTPAttempt → Bool
  | .transportErr => true
  | .httpResp status _ => 500 ≤ status

/-! ### Protocol client (`pkg/a2a/client`) -/

structure JSONRPCError where
  code : Int
  message : String
deriving Repr, DecidableEq

/-- `types.Part` (the `data`/`file` payloads are omitted: no embedded
operation reads them). -/
structure Part where
  type : String
  text : String
deriving Repr, DecidableEq

structure Message where
  role : String
  parts : List Part
deriving Repr, DecidableEq

structure TaskRequest where
  id : String
  message : Option Message
deriving Repr, DecidableEq

structure TaskResponse where
  id : String
  message : Option Message
  status : String
  error : String
deriving Repr, DecidableEq

/-- `types.StreamResponse` (`data` payload omitted; timestamp as `Int`). -/
structure StreamResponse where
  id : String
  timestamp : Int
  type : String
  done : Bool
deriving Repr, DecidableEq

/-- Outcome of `json.Unmarshal` of a JSON-RPC result payload into a
`TaskResponse`. -/
inductive ResultDecode where
  | malformed
  | taskResponse (resp : TaskResponse)
deriving Repr, DecidableEq

/-- Outcome of decoding an HTTP body as a JSON-RPC envelope. -/
inductive BodyDecode where
  | malformed
  | envelope (error : Option JSONRPCError) (result : ResultDecode)
deriving Repr, DecidableEq

/-- What one `SendTask` HTTP exchange observes from the server. -/
inductive Reply where
  | transportErr
  | httpResp (status : Nat) (body : BodyDecode)
deriving Repr, DecidableEq

/-- The error kinds `SendTask` returns. -/
inductive ClientError where
  | requestFailed
  | unexpectedStatus (status : Nat)
  | decodeResponse
  | a2aError (code : Int) (message : String)
  | unmarshalTask
deriving Repr, DecidableEq

/-- `SendTask` response handling: the request build/POST is abstracted as the
observed `Reply`; everything from the status check on follows the source. -/
def sendTask (req : TaskRequest) (reply : Reply) : Except ClientError TaskResponse :=
  match reply with
  | .transportErr => .error .requestFailed
  | .httpResp status body =>
    if status ≠ 200 then .error (.unexpectedStatus status)
    else
      match body with
      | .malformed => .error .decodeResponse
      | .envelope (some e) _ => .error (.a2aError e.code e.message)
      | .envelope none .malformed => .error .unmarshalTask
      | .envelope none (.taskResponse taskResp) => .ok taskResp

/-- The error kinds `StreamTask` can deliver on its error channel. -/
inductive StreamErr where
  | requestFailed
  | unexpectedStatus (status : Nat)
  | unmarshalStream
deriving Repr, DecidableEq

/-- What one `StreamTask` HTTP exchange observes: the response status and the
scanner's lines until connection close. -/
inductive StreamReply where
  | transportErr
  | httpResp (status : Nat) (lines : List (List Char))
deriving Repr, DecidableEq

/-- The scanner loop of `StreamTask`: `data:`-prefixed lines are stripped,
trimmed, and decoded (`decode` models `json.Unmarshal` into a
`StreamResponse`); the returned list is the sequence delivered on the output
channel in order, and the `Option StreamErr` is the value (if any) delivered
on the error channel before both channels close. -/
def processLines (decode : List Char → Option StreamResponse) :
    List (List Char) → List StreamResponse × Option StreamErr
  | [] => ([], none)
  | line :: rest =>
    if ("data:").data.isPrefixOf line then
      let data := trimSpace (line.drop 5)
      if data = [] then processLines decode rest
      else
        match decode data with
        | none => ([], some .unmarshalStream)
        | some streamResp =>
          let r := processLines decode rest
          (streamResp :: r.1, r.2)
    else processLines decode rest

/-- `StreamTask` goroutine body (sequential model of the channel protocol):
returns the ordered output-channel deliveries and the terminal error, if any. -/
def streamTask (decode : List Char → Option StreamResponse) (reply : StreamReply) :
    List StreamResponse × Option StreamErr :=
  match reply with
  | .transportErr => ([], some .requestFailed)
  | .httpResp status lines =>
    if status ≠ 200 then ([], some (.unexpectedStatus status))
    else processLines decode lines

/-! ### Agent registry (`pkg/registry`) -/

/-- Insert/overwrite by key: the model of `r.agents[agent.ID] = agent` on an
association list with unique keys (a Go map). -/
def insertAssoc (key : String) (value : Agent) :
    List (String × Agent) → List (String × Agent)
  | [] => [(key, value)]
  | (k, v) :: rest =>
    if k = key then (key, value) :: rest else (k, v) :: insertAssoc key value rest

/-- Map lookup. -/
def lookupAssoc (key : String) : List (String × Agent) → Option Agent
  | [] => none
  | (k, v) :: rest => if k = key then some v else lookupAssoc key rest

/-- `Register`: stores the agent under its ID and returns a nil error. -/
def register (agent : Agent) (agents : List (String × Agent)) :
    List (String × Agent) × Option String :=
  (insertAssoc agent.id agent agents, none)

/-- `Get`: lookup by ID, not-found error when absent. -/
def get (agentID : String) (agents : List (String × Agent)) : Except String Agent :=
  match lookupAssoc agentID agents with
  | some agent => .ok agent
  | none => .error ("agent not found: " ++ agentID)

/-- `FindByCapability`: agents with a non-nil card whose flag for the queried
capability name is set. -/
def findByCapability (capability : String) : List (String × Agent) → List Agent
  | [] => []
  | (_, agent) :: rest =>
    match agent.card with
    | some card =>
      if (capability == "streaming" && card.capabilities.streaming)
          || (capability == "pushNotifications" && card.capabilities.pushNotifications)
          || (capability == "stateTransitionHistory" && card.capabilities.stateTransitionHistory)
      then agent :: findByCapability capability rest
      else findByCapability capability rest
    | none => findByCapability capability rest

/-- `staleThreshold` of `cleanupStaleAgents`: `5 * time.Minute` in nanoseconds. -/
def staleThreshold : Int := 300000000000

/-- `cleanupStaleAgents` at wall-clock time `now`: delete every agent with
`now.Sub(agent.LastSeen) > staleThreshold`. -/
def cleanupStaleAgents (now : Int) (agents : List (String × Agent)) :
    List (String × Agent) :=
  agents.filter (fun entry => !(decide (now - entry.2.lastSeen > staleThreshold)))

/-! ### Helper lemmas: association-list registry -/

lemma lookupAssoc_insertAssoc_self (k : String) (v : Agent) (l : List (String × Agent)) :
    lookupAssoc k (insertAssoc k v l) = some v := by
  induction l with
  | nil => simp [insertAssoc, lookupAssoc]
  | cons e t ih =>
    obtain ⟨k', v'⟩ := e
    by_cases h : k' = k
    · simp [insertAssoc, h, lookupAssoc]
    · simp [insertAssoc, h, lookupAssoc, ih]

lemma lookupAssoc_eq_none (k : String) (l : List (String × Agent))
    (h : k ∉ l.map Prod.fst) : lookupAssoc k l = none := by
  induction l with
  | nil => rfl
  | cons e t ih =>
    obtain ⟨k', v'⟩ := e
    simp only [List.map_cons, List.mem_cons, not_or] at h
    rw [lookupAssoc, if_neg (fun hh => h.1 hh.symm)]
    exact ih h.2

lemma keys_filter_subset (p : String × Agent → Bool) (l : List (String × Agent)) :
    ((l.filter p).map Prod.fst) ⊆ l.map Prod.fst := by
  intro x hx
  simp only [List.mem_map] at hx ⊢
  obtain ⟨e, he, hfst⟩ := hx
  exact ⟨e, (List.mem_filter.mp he).1, hfst⟩

lemma lookupAssoc_filter_none (p : String × Agent → Bool) (l : List (String × Agent))
    (k : String) (a : Agent) (hnd : (l.map Prod.fst).Nodup)
    (hl : lookupAssoc k l = some a) (hpa : p (k, a) = false) :
    lookupAssoc k (l.filter p) = none := by
  induction l with
  | nil => simp [lookupAssoc] at hl
  | cons e t ih =>
    obtain ⟨k', v'⟩ := e
    simp only [List.map_cons, List.nodup_cons] at hnd
    obtain ⟨hk', hnd'⟩ := hnd
    rw [List.filter_cons]
    by_cases h : k' = k
    · rw [lookupAssoc, if_pos h] at hl
      have hva : v' = a := by injection hl
      have hp : p (k', v') = false := by rw [h, hva]; exact hpa
      rw [hp]
      simp only [Bool.false_eq_true, if_false]
      rw [h] at hk'
      exact lookupAssoc_eq_none k _ (fun hmem => hk' (keys_filter_subset p t hmem))
    · rw [lookupAssoc, if_neg h] at hl
      cases hp : p (k', v') with
      | false => simp only [Bool.false_eq_true, if_false]; exact ih hnd' hl
      | true =>
        rw [if_pos rfl, lookupAssoc, if_neg h]
        exact ih hnd' hl

lemma lookupAssoc_filter_some (p : String × Agent → Bool) (l : List (String × Agent))
    (k : String) (a : Agent) (hl : lookupAssoc k l = some a) (hpa : p (k, a) = true) :
    lookupAssoc k (l.filter p) = some a := by
  induction l with
  | nil => simp [lookupAssoc] at hl
  | cons e t ih =>
    obtain ⟨k', v'⟩ := e
    rw [List.filter_cons]
    by_cases h : k' = k
    · rw [lookupAssoc, if_pos h] at hl
      have hva : v' = a := by injection hl
      have hp : p (k', v') = true := by rw [h, hva]; exact hpa
      rw [hp, if_pos rfl, lookupAssoc, if_pos h, hva]
    · rw [lookupAssoc, if_neg h] at hl
      cases hp : p (k', v') with
      | false => simp only [Bool.false_eq_true, if_false]; exact ih hl
      | true =>
        rw [if_pos rfl, lookupAssoc, if_neg h]
        exact ih hl

/-! ### Claim theorems: registry -/

/-- C9: `Register` returns a nil error for every input agent and every
registry state (including empty IDs, missing cards, and duplicate IDs), i.e.
registration can never fail. -/
theorem register_always_nil_error :
    ∀ (agent : Agent) (agents : List (String × Agent)),
      (register agent agents).2 = none :=
  fun _ _ => rfl

/-- C8: after `Register(a)`, `Get(a.ID)` returns exactly `a`; registering a
second agent with the same id overwrites the first, so a subsequent `Get`
returns the later agent. -/
theorem register_get_roundtrip :
    ∀ (agents : List (String × Agent)) (a b : Agent),
      get a.id (register a agents).1 = .ok a ∧
      (b.id = a.id → get a.id (register b (register a agents).1).1 = .ok b) := by
  intro agents a b
  refine ⟨?_, ?_⟩
  · simp [register, get, lookupAssoc_insertAssoc_self]
  · intro hid
    simp [register, get, ← hid, lookupAssoc_insertAssoc_self]

def regAgentA : Agent := ⟨"a1", "first", "http://one.local", none, "discovering", 0, 0⟩
def regAgentB : Agent := ⟨"a1", "second", "http://two.local", none, "online", 5, 5⟩

theorem register_get_roundtrip_witness :
    get regAgentA.id (register regAgentA []).1 = .ok regAgentA ∧
    get regAgentA.id (register regAgentB (register regAgentA []).1).1 = .ok regAgentB :=
  ⟨(register_get_roundtrip [] regAgentA regAgentB).1,
   (register_get_roundtrip [] regAgentA regAgentB).2 (by decide)⟩

/-- C10: `FindByCapability` returns an agent only when its card is non-nil
and the queried name is one of the three recognized capability names with the
corresponding flag set; for every other capability name it returns the empty
list regardless of registry contents. -/
theorem findByCapability_card_flag_only :
    (∀ (capability : String) (agents : List (String × Agent)) (a : Agent),
      a ∈ findByCapability capability agents →
      ∃ card, a.card = some card ∧
        ((capability = "streaming" ∧ card.capabilities.streaming = true) ∨
         (capability = "pushNotifications" ∧ card.capabilities.pushNotifications = true) ∨
         (capability = "stateTransitionHistory" ∧ card.capabilities.stateTransitionHistory = true))) ∧
    (∀ (capability : String) (agents : List (String × Agent)),
      capability ≠ "streaming" → capability ≠ "pushNotifications" →
      capability ≠ "stateTransitionHistory" →
      findByCapability capability agents = []) := by
  constructor
  · intro capability agents
    induction agents with
    | nil => intro a h; simp [findByCapability] at h
    | cons e t ih =>
      obtain ⟨k, ag⟩ := e
      intro a h
      cases hc : ag.card with
      | none =>
        simp only [findByCapability, hc] at h
        exact ih a h
      | some card =>
        simp only [findByCapability, hc] at h
        by_cases hcond : ((capability == "streaming" && card.capabilities.streaming)
            || (capability == "pushNotifications" && card.capabilities.pushNotifications)
            || (capability == "stateTransitionHistory" && card.capabilities.stateTransitionHistory)) = true
        · rw [if_pos hcond] at h
          rcases List.mem_cons.mp h with rfl | h
          · refine ⟨card, hc, ?_⟩
            have := hcond
            simp only [Bool.or_eq_true, Bool.and_eq_true, beq_iff_eq] at this
            tauto
          · exact ih a h
        · rw [if_neg hcond] at h
          exact ih a h
  · intro capability agents h1 h2 h3
    induction agents with
    | nil => rfl
    | cons e t ih =>
      obtain ⟨k, ag⟩ := e
      cases hc : ag.card with
      | none =>
        simp only [findByCapability, hc]
        exact ih
      | some card =>
        simp only [findByCapability, hc]
        rw [if_neg (by simp [h1, h2, h3])]
        exact ih

def capCard : AgentCard := ⟨"cap-agent", "", "", "2.0", ⟨true, false, false⟩, []⟩
def capAgent : Agent := ⟨"c1", "cap-agent", "http://cap.local", some capCard, "online", 0, 0⟩

theorem findByCapability_card_flag_only_witness :
    (∃ card, capAgent.card = some card ∧
      ((("streaming" : String) = "streaming" ∧ card.capabilities.streaming = true) ∨
       (("streaming" : String) = "pushNotifications" ∧ card.capabilities.pushNotifications = true) ∨
       (("streaming" : String) = "stateTransitionHistory" ∧ card.capabilities.stateTransitionHistory = true))) ∧
    findByCapability "noSuchCapability" [("c1", capAgent)] = [] :=
  ⟨findByCapability_card_flag_only.1 "streaming" [("c1", capAgent)] capAgent (by decide),
   findByCapability_card_flag_only.2 "noSuchCapability" [("c1", capAgent)]
     (by decide) (by decide) (by decide)⟩

def offlineStreamingCard : AgentCard := ⟨"kagent", "", "", "1.0.0", ⟨true, false, false⟩, []⟩
def offlineStreamingAgent : Agent :=
  ⟨"agent-1", "kagent", "http://agent.local", some offlineStreamingCard, agentStatusOffline, 0, 0⟩

/-- C2: the spec requires `FindByCapability` to return only Online agents, and
the repository's discovery guide documents the `Status == AgentStatusOnline`
check, but the implementation never consults `agent.Status`: a registry whose
only agent is offline (with the streaming flag set) is still returned by
`FindByCapability("streaming")`. -/
theorem findByCapability_returns_non_online :
    findByCapability "streaming" [("agent-1", offlineStreamingAgent)]
        = [offlineStreamingAgent] ∧
    offlineStreamingAgent.status ≠ agentStatusOnline := by
  exact ⟨rfl, by decide⟩

/-- C7: a cleanup pass at time `now` evicts every agent whose last-seen
timestamp is more than the stale threshold old — a subsequent `Get` of its id
returns the not-found error — and retains every agent within the threshold. -/
theorem cleanup_evicts_stale_retains_fresh :
    ∀ (agents : List (String × Agent)) (now : Int) (agentID : String) (a : Agent),
      (agents.map Prod.fst).Nodup →
      lookupAssoc agentID agents = some a →
      (now - a.lastSeen > staleThreshold →
        get agentID (cleanupStaleAgents now agents) = .error ("agent not found: " ++ agentID)) ∧
      (¬(now - a.lastSeen > staleThreshold) →
        get agentID (cleanupStaleAgents now agents) = .ok a) := by
  intro agents now agentID a hnd hl
  constructor
  · intro hstale
    have h' : lookupAssoc agentID (cleanupStaleAgents now agents) = none := by
      rw [cleanupStaleAgents]
      exact lookupAssoc_filter_none _ agents agentID a hnd hl (by simp [hstale])
    simp [get, h']
  · intro hfresh
    have h' : lookupAssoc agentID (cleanupStaleAgents now agents) = some a := by
      rw [cleanupStaleAgents]
      exact lookupAssoc_filter_some _ agents agentID a hl (by simp [hfresh])
    simp [get, h']

def staleAgent : Agent := ⟨"s1", "stale", "http://stale.local", none, "online", 0, 0⟩
def freshAgent : Agent := ⟨"f1", "fresh", "http://fresh.local", none, "online", 350000000000, 0⟩

theorem cleanup_evicts_stale_retains_fresh_witness :
    get "s1" (cleanupStaleAgents 400000000000 [("s1", staleAgent), ("f1", freshAgent)])
        = .error ("agent not found: " ++ "s1") ∧
    get "f1" (cleanupStaleAgents 400000000000 [("s1", staleAgent), ("f1", freshAgent)])
        = .ok freshAgent :=
  ⟨(cleanup_evicts_stale_retains_fresh [("s1", staleAgent), ("f1", freshAgent)]
      400000000000 "s1" staleAgent (by decide) rfl).1 (by decide),
   (cleanup_evicts_stale_retains_fresh [("s1", staleAgent), ("f1", freshAgent)]
      400000000000 "f1" freshAgent (by decide) rfl).2 (by decide)⟩

/-! ### Claim theorems: protocol client -/

/-- C3 counterexample: a 200 reply whose result payload decodes to a
`TaskResponse` with an id different from the request's task id is returned as
a success, not as a protocol error — refuting the claim at this input. -/
theorem sendTask_id_mismatch_cex :
    sendTask ⟨"task-a", none⟩
        (.httpResp 200 (.envelope none (.taskResponse ⟨"task-b", none, "completed", ""⟩)))
      = .ok ⟨"task-b", none, "completed", ""⟩ ∧
    ("task-b" : String) ≠ "task-a" :=
  ⟨rfl, by decide⟩

/-- C3 amended: `SendTask` performs no task-id check — for every request and
every 200 reply whose envelope carries no error object and whose result
payload decodes to a `TaskResponse` `t`, it returns `t` verbatim even when
`t.id` differs from the request's task id. -/
theorem sendTask_returns_mismatched_response :
    ∀ (req : TaskRequest) (t : TaskResponse), t.id ≠ req.id →
      sendTask req (.httpResp 200 (.envelope none (.taskResponse t))) = .ok t := by
  intro req t _
  rfl

theorem sendTask_returns_mismatched_response_witness :
    (TaskResponse.mk "task-2" none "working" "").id ≠ (TaskRequest.mk "task-1" none).id ∧
    sendTask ⟨"task-1", none⟩
        (.httpResp 200 (.envelope none (.taskResponse ⟨"task-2", none, "working", ""⟩)))
      = .ok ⟨"task-2", none, "working", ""⟩ :=
  ⟨by decide,
   sendTask_returns_mismatched_response ⟨"task-1", none⟩ ⟨"task-2", none, "working", ""⟩
     (by decide)⟩

lemma isPrefixOf_append_self (l t : List Char) : l.isPrefixOf (l ++ t) = true := by
  simp [List.isPrefixOf_iff_prefix]

lemma drop_five_data (p : List Char) : (("data:").data ++ p).drop 5 = p := by
  have h : ("data:").data.length = 5 := rfl
  rw [← h]
  exact List.drop_left _ _

/-- C6: a 200 stream whose body is exactly three well-formed `data:` lines
followed by connection close delivers exactly those three decoded
`StreamResponse` values in order on the output channel, then closes with no
error delivered on the error channel. -/
theorem streamTask_three_data_lines :
    ∀ (decode : List Char → Option StreamResponse) (p1 p2 p3 : List Char)
      (r1 r2 r3 : StreamResponse),
      trimSpace p1 ≠ [] → decode (trimSpace p1) = some r1 →
      trimSpace p2 ≠ [] → decode (trimSpace p2) = some r2 →
      trimSpace p3 ≠ [] → decode (trimSpace p3) = some r3 →
      streamTask decode (.httpResp 200
          [("data:").data ++ p1, ("data:").data ++ p2, ("data:").data ++ p3])
        = ([r1, r2, r3], none) := by
  intro decode p1 p2 p3 r1 r2 r3 h1 hd1 h2 hd2 h3 hd3
  simp [streamTask, processLines, isPrefixOf_append_self, drop_five_data,
    h1, h2, h3, hd1, hd2, hd3]

/-! ### Claim theorems: discovery retry policy -/

lemma fetchFrom_step_fail (total : Nat) (responses : Nat → HTTPAttempt) (attempt r : Nat)
    (lastErr : Option FetchError) (hfail : isServerFailure (responses attempt) = true) :
    fetchFrom total responses attempt (r + 1) lastErr
      = fetchFrom total responses (attempt + 1) r (some (attemptError (responses attempt))) := by
  cases hr : responses attempt with
  | transportErr => rw [fetchFrom, hr]; rfl
  | httpResp status body =>
    rw [hr] at hfail
    simp only [isServerFailure, decide_eq_true_eq] at hfail
    rw [fetchFrom]
    simp only [hr]
    rw [if_neg (by omega), if_neg (by omega), if_neg (by omega), if_neg (by omega),
      if_neg (by omega)]
    simp [attemptError]

lemma fetchFrom_server_failures (total : Nat) (responses : Nat → HTTPAttempt) :
    ∀ (r attempt : Nat) (lastErr : Option FetchError),
      (∀ i, attempt ≤ i → i ≤ attempt + r → isServerFailure (responses i) = true) →
      (fetchFrom total responses attempt (r + 1) lastErr).result
        = .error (.failedAfter total (attemptError (responses (attempt + r)))) := by
  intro r
  induction r with
  | zero =>
    intro attempt lastErr hall
    rw [fetchFrom_step_fail total responses attempt 0 lastErr (hall attempt le_rfl (by omega))]
    rw [fetchFrom]
    simp
  | succ r ih =>
    intro attempt lastErr hall
    rw [fetchFrom_step_fail total responses attempt (r + 1) lastErr
      (hall attempt le_rfl (by omega))]
    rw [ih (attempt + 1) _ (fun i h1 h2 => hall i (by omega) (by omega))]
    rw [show attempt + 1 + r = attempt + (r + 1) from by omega]

/-- C4: `fetchWithRetry` satisfies the retry policy.  (1) A first response
with any 4xx status yields an error after exactly one attempt and zero retry
delays.  (2) With the default `maxRetries = 3`, HTTP 500 on the first three
attempts followed by HTTP 200 yields the 200 body.  (3) When every allowed
attempt is a 5xx or transport failure, the result is the last attempt's error
wrapped with the attempt count `maxRetries + 1`. -/
theorem fetchWithRetry_policy :
    (∀ (maxR : Nat) (responses : Nat → HTTPAttempt) (status : Nat) (body : List Char),
      responses 0 = .httpResp status body → 400 ≤ status → status < 500 →
      (∃ e, (fetchWithRetry maxR responses).result = .error e) ∧
      (fetchWithRetry maxR responses).attempts = 1 ∧
      (fetchWithRetry maxR responses).delays = 0) ∧
    (∀ (responses : Nat → HTTPAttempt) (body : List Char),
      (∀ i, i < 3 → ∃ b, responses i = .httpResp 500 b) →
      responses 3 = .httpResp 200 body →
      (fetchWithRetry 3 responses).result = .ok body) ∧
    (∀ (maxR : Nat) (responses : Nat → HTTPAttempt),
      (∀ i, i ≤ maxR → isServerFailure (responses i) = true) →
      (fetchWithRetry maxR responses).result
        = .error (.failedAfter (maxR + 1) (attemptError (responses maxR)))) := by
  refine ⟨?_, ?_, ?_⟩
  · intro maxR responses status body h0 h400 h500
    rw [fetchWithRetry, fetchFrom]
    simp only [h0]
    rw [if_neg (by omega)]
    by_cases h404 : status = 404
    · rw [if_pos h404]; exact ⟨⟨_, rfl⟩, rfl, rfl⟩
    · rw [if_neg h404]
      by_cases h401 : status = 401
      · rw [if_pos h401]; exact ⟨⟨_, rfl⟩, rfl, rfl⟩
      · rw [if_neg h401]
        by_cases h403 : status = 403
        · rw [if_pos h403]; exact ⟨⟨_, rfl⟩, rfl, rfl⟩
        · rw [if_neg h403, if_pos ⟨h400, h500⟩]
          exact ⟨⟨_, rfl⟩, rfl, rfl⟩
  · intro responses body h500s h200
    obtain ⟨b0, h0⟩ := h500s 0 (by omega)
    obtain ⟨b1, h1⟩ := h500s 1 (by omega)
    obtain ⟨b2, h2⟩ := h500s 2 (by omega)
    have hf0 : isServerFailure (responses 0) = true := by rw [h0]; rfl
    have hf1 : isServerFailure (responses 1) = true := by rw [h1]; rfl
    have hf2 : isServerFailure (responses 2) = true := by rw [h2]; rfl
    have htot : fetchWithRetry 3 responses = ⟨.ok body, 4, 3⟩ := by
      calc fetchWithRetry 3 responses
          = fetchFrom 4 responses 0 4 none := rfl
        _ = fetchFrom 4 responses 1 3 (some (attemptError (responses 0))) :=
            fetchFrom_step_fail 4 responses 0 3 none hf0
        _ = fetchFrom 4 responses 2 2 (some (attemptError (responses 1))) :=
            fetchFrom_step_fail 4 responses 1 2 (some (attemptError (responses 0))) hf1
        _ = fetchFrom 4 responses 3 1 (some (attemptError (responses 2))) :=
            fetchFrom_step_fail 4 responses 2 1 (some (attemptError (responses 1))) hf2
        _ = ⟨.ok body, 4, 3⟩ := by
            show fetchFrom 4 responses 3 (0 + 1) (some (attemptError (responses 2)))
              = (⟨.ok body, 4, 3⟩ : FetchResult)
            rw [fetchFrom]
            simp only [h200]
            norm_num
    rw [htot]
  · intro maxR responses hall
    rw [fetchWithRetry]
    rw [fetchFrom_server_failures (maxR + 1) responses maxR 0 none
      (fun i h1 h2 => hall i (by omega))]
    rw [Nat.zero_add]

theorem fetchWithRetry_policy_witness :
    (∃ e, (fetchWithRetry 3 (fun _ => .httpResp 404 [])).result = .error e) ∧
    (fetchWithRetry 3 (fun _ => .httpResp 404 [])).attempts = 1 ∧
    (fetchWithRetry 3 (fun _ => .httpResp 404 [])).delays = 0 ∧
    (fetchWithRetry 3 (fun i => if i < 3 then .httpResp 500 [] else .httpResp 200 ("card").data)).result
      = .ok ("card").data ∧
    (fetchWithRetry 1 (fun _ => .transportErr)).result
      = .error (.failedAfter 2 .requestFailed) := by
  refine ⟨?_, ?_, ?_, ?_, ?_⟩
  · exact (fetchWithRetry_policy.1 3 _ 404 [] rfl (by omega) (by omega)).1
  · exact (fetchWithRetry_policy.1 3 _ 404 [] rfl (by omega) (by omega)).2.1
  · exact (fetchWithRetry_policy.1 3 _ 404 [] rfl (by omega) (by omega)).2.2
  · exact fetchWithRetry_policy.2.1 _ ("card").data
      (fun i hi => ⟨[], by simp [hi]⟩) (by norm_num)
  · exact fetchWithRetry_policy.2.2 1 _ (fun i _ => rfl)

def sseResp : StreamResponse := ⟨"evt", 0, "progress", false⟩

theorem streamTask_three_data_lines_witness :
    trimSpace ("x").data ≠ [] ∧
    streamTask (fun _ => some sseResp)
        (.httpResp 200 [("data:").data ++ ("x").data,
          ("data:").data ++ (" y").data, ("data:").data ++ ("z ").data])
      = ([sseResp, sseResp, sseResp], none) :=
  ⟨by decide,
   streamTask_three_data_lines _ _ _ _ _ _ _
     (by decide) rfl (by decide) rfl (by decide) rfl⟩

/-! ### Claim theorems: AgentCard validation -/

/-- Follows the spec's words (the success conditions of claim C5): the
endpoint has an absolute http/https URL, a recognized type, and — for type
`a2a` — only standard protocol methods. -/
def specEndpointValid (e : Endpoint) : Bool :=
  (match urlParse e.url with
   | some u => u.scheme == ("http").data || u.scheme == ("https").data
   | none => false)
  && contains validTypes e.type
  && (e.type != "a2a" || e.methods.all isValidA2AMethod)

lemma urlParse_nil : urlParse [] = some ⟨[], [], [], none, none⟩ := rfl

lemma firstInvalidMethod_none (methods : List String)
    (h : methods.all isValidA2AMethod = true) : firstInvalidMethod methods = none := by
  induction methods with
  | nil => rfl
  | cons m t ih =>
    simp only [List.all_cons, Bool.and_eq_true] at h
    rw [firstInvalidMethod, if_neg (by simp [h.1])]
    exact ih h.2

lemma validateEndpoint_none_of_spec (e : Endpoint) (h : specEndpointValid e = true) :
    validateEndpoint e = none := by
  by_cases hurl : e.url = []
  · rw [specEndpointValid, hurl, urlParse_nil] at h
    simp at h
  · rw [specEndpointValid] at h
    cases hu : urlParse e.url with
    | none => rw [hu] at h; simp at h
    | some u =>
      rw [hu] at h
      simp only [Bool.and_eq_true, Bool.or_eq_true, beq_iff_eq] at h
      obtain ⟨⟨hscheme, htype⟩, hmeth⟩ := h
      rw [validateEndpoint, if_neg hurl]
      simp only [hu]
      rw [if_neg (by tauto)]
      rw [if_neg (by simp [htype])]
      by_cases ht : e.type = "a2a"
      · rw [if_pos ht]
        apply firstInvalidMethod_none
        rcases hmeth with hm | hm
        · simp [ht] at hm
        · exact hm
      · rw [if_neg ht]

lemma validateEndpointsFrom_none :
    ∀ (i : Nat) (l : List Endpoint), (∀ e ∈ l, specEndpointValid e = true) →
      validateEndpointsFrom i l = none := by
  intro i l
  induction l generalizing i with
  | nil => intro _; rfl
  | cons e t ih =>
    intro h
    simp only [validateEndpointsFrom, validateEndpoint_none_of_spec e (h e (by simp))]
    exact ih (i + 1) (fun x hx => h x (by simp [hx]))

/-- C5: `Validate` rejects every card whose name or version is empty, and
accepts every card with non-empty name and version all of whose endpoints
have an absolute http/https URL, a type among a2a/streaming/webhook, and
(for type a2a) only the six standard method names. -/
theorem validate_required_fields_and_valid_endpoints :
    (∀ card : AgentCard, card.name = "" ∨ card.version = "" →
      (validate card).isSome = true) ∧
    (∀ card : AgentCard, card.name ≠ "" → card.version ≠ "" →
      (∀ e ∈ card.endpoints, specEndpointValid e = true) → validate card = none) := by
  constructor
  · intro card h
    rcases h with h | h
    · simp [validate, h]
    · by_cases hn : card.name = "" <;> simp [validate, h, hn]
  · intro card hn hv he
    rw [validate, if_neg hn, if_neg hv]
    exact validateEndpointsFrom_none 0 card.endpoints he

def namelessCard : AgentCard := ⟨"", "", "", "1.0.0", ⟨false, false, false⟩, []⟩

def goodCard : AgentCard :=
  ⟨"demo-agent", "", "http://demo.local", "1.0.0", ⟨true, false, false⟩,
    [⟨"a2a", ("https://demo.local/a2a").data, ["tasks/send", "tasks/cancel"], ""⟩,
     ⟨"streaming", ("http://demo.local/stream").data, [], ""⟩]⟩

theorem validate_required_fields_and_valid_endpoints_witness :
    (validate namelessCard).isSome = true ∧ validate goodCard = none :=
  ⟨validate_required_fields_and_valid_endpoints.1 namelessCard (Or.inl rfl),
   validate_required_fields_and_valid_endpoints.2 goodCard (by decide) (by decide) (by decide)⟩

/-! ### Claim theorems: discovery URL construction -/

/-- Characters allowed in the host part of the URLs claim C1 quantifies over:
no control characters, no whitespace, and none of the delimiters. -/
def hostOkChar (c : Char) : Bool :=
  !(isCtl c) && !(isGoSpace c) && !(c == '/') && !(c == '?') && !(c == '#')

/-- Characters allowed in the path part: as `hostOkChar` but `/` is allowed. -/
def pathOkChar (c : Char) : Bool :=
  !(isCtl c) && !(isGoSpace c) && !(c == '?') && !(c == '#')

lemma hostOkChar_spec (c : Char) (h : hostOkChar c = true) :
    isCtl c = false ∧ isGoSpace c = false ∧ (c == '/') = false ∧
      (c == '?') = false ∧ (c == '#') = false := by
  simp only [hostOkChar, Bool.and_eq_true, Bool.not_eq_true'] at h
  exact ⟨h.1.1.1.1, h.1.1.1.2, h.1.1.2, h.1.2, h.2⟩

lemma pathOkChar_spec (c : Char) (h : pathOkChar c = true) :
    isCtl c = false ∧ isGoSpace c = false ∧ (c == '?') = false ∧ (c == '#') = false := by
  simp only [pathOkChar, Bool.and_eq_true, Bool.not_eq_true'] at h
  exact ⟨h.1.1.1, h.1.1.2, h.1.2, h.2⟩

lemma not_space_of_not_goSpace (c : Char) (h : isGoSpace c = false) : (c == ' ') = false := by
  simp only [isGoSpace, Bool.or_eq_false_iff] at h
  exact h.1.1.1.1.1

lemma dropWhile_eq_self_of_all (p : Char → Bool) (s : List Char)
    (h : ∀ c ∈ s, p c = false) : s.dropWhile p = s := by
  cases s with
  | nil => rfl
  | cons c t => simp [List.dropWhile_cons, h c (List.mem_cons_self c t)]

lemma trimSpace_eq_self (s : List Char) (h : ∀ c ∈ s, isGoSpace c = false) :
    trimSpace s = s := by
  rw [trimSpace, dropWhile_eq_self_of_all _ _ h,
    dropWhile_eq_self_of_all _ _ (fun c hc => h c (List.mem_reverse.mp hc)),
    List.reverse_reverse]

lemma any_eq_false_of_all (p : Char → Bool) (s : List Char)
    (h : ∀ c ∈ s, p c = false) : s.any p = false := by
  induction s with
  | nil => rfl
  | cons c t ih =>
    simp [List.any_cons, h c (List.mem_cons_self c t),
      ih (fun x hx => h x (List.mem_cons_of_mem c hx))]

lemma cutAt_not_mem (mark : Char) (s : List Char) (h : ∀ c ∈ s, c ≠ mark) :
    cutAt mark s = (s, none) := by
  induction s with
  | nil => rfl
  | cons c t ih =>
    have hc : ¬(c = mark) := h c (List.mem_cons_self c t)
    simp [cutAt, hc, ih (fun x hx => h x (List.mem_cons_of_mem c hx))]

lemma takeWhile_append_of_all (p : Char → Bool) (l t : List Char)
    (h : ∀ c ∈ l, p c = true) : (l ++ t).takeWhile p = l ++ t.takeWhile p := by
  induction l with
  | nil => simp
  | cons c l ih =>
    simp [List.takeWhile_cons, h c (List.mem_cons_self c l),
      ih (fun x hx => h x (List.mem_cons_of_mem c hx))]

lemma dropWhile_append_of_all (p : Char → Bool) (l t : List Char)
    (h : ∀ c ∈ l, p c = true) : (l ++ t).dropWhile p = t.dropWhile p := by
  induction l with
  | nil => simp
  | cons c l ih =>
    simp [List.dropWhile_cons, h c (List.mem_cons_self c l),
      ih (fun x hx => h x (List.mem_cons_of_mem c hx))]

lemma schemeSplit_http (t : List Char) :
    schemeSplit (("http://").data ++ t) = .ok (some (("http").data, '/' :: '/' :: t)) := rfl

lemma urlParse_http (host path : List Char)
    (hhost : ∀ c ∈ host, hostOkChar c = true)
    (hpath : ∀ c ∈ path, pathOkChar c = true)
    (hstart : path = [] ∨ ∃ t, path = '/' :: t) :
    urlParse (("http://").data ++ (host ++ path))
      = some ⟨("http").data, host, path, none, none⟩ := by
  have hpre : ∀ c ∈ ("http://").data, isCtl c = false ∧ isGoSpace c = false ∧
      c ≠ '#' ∧ c ≠ '?' := by decide
  have hctl : ((("http://").data ++ (host ++ path)).any isCtl) = false := by
    apply any_eq_false_of_all
    intro c hc
    rcases List.mem_append.mp hc with h | h
    · exact (hpre c h).1
    · rcases List.mem_append.mp h with h | h
      · exact (hostOkChar_spec c (hhost c h)).1
      · exact (pathOkChar_spec c (hpath c h)).1
  have hfr : cutAt '#' ('/' :: '/' :: (host ++ path)) = ('/' :: '/' :: (host ++ path), none) := by
    apply cutAt_not_mem
    intro c hc
    rcases List.mem_cons.mp hc with rfl | hc
    · decide
    rcases List.mem_cons.mp hc with rfl | hc
    · decide
    rcases List.mem_append.mp hc with h | h
    · exact beq_eq_false_iff_ne.mp (hostOkChar_spec c (hhost c h)).2.2.2.2
    · exact beq_eq_false_iff_ne.mp (pathOkChar_spec c (hpath c h)).2.2.2
  have hqr : cutAt '?' ('/' :: '/' :: (host ++ path)) = ('/' :: '/' :: (host ++ path), none) := by
    apply cutAt_not_mem
    intro c hc
    rcases List.mem_cons.mp hc with rfl | hc
    · decide
    rcases List.mem_cons.mp hc with rfl | hc
    · decide
    rcases List.mem_append.mp hc with h | h
    · exact beq_eq_false_iff_ne.mp (hostOkChar_spec c (hhost c h)).2.2.2.1
    · exact beq_eq_false_iff_ne.mp (pathOkChar_spec c (hpath c h)).2.2.1
  have hhp : ∀ c ∈ host, (fun c => !(c == '/')) c = true := by
    intro c hc
    simp [(hostOkChar_spec c (hhost c hc)).2.2.1]
  have htake : (host ++ path).takeWhile (fun c => !(c == '/')) = host := by
    rw [takeWhile_append_of_all _ _ _ hhp]
    rcases hstart with rfl | ⟨t, rfl⟩
    · simp
    · simp [List.takeWhile_cons]
  have hdrop : (host ++ path).dropWhile (fun c => !(c == '/')) = path := by
    rw [dropWhile_append_of_all _ _ _ hhp]
    rcases hstart with rfl | ⟨t, rfl⟩
    · simp
    · simp [List.dropWhile_cons]
  have hspace : host.any (fun c => c == ' ') = false := by
    apply any_eq_false_of_all
    intro c hc
    exact not_space_of_not_goSpace c (hostOkChar_spec c (hhost c hc)).2.1
  rw [urlParse, hctl]
  simp only [Bool.false_eq_true, if_false]
  rw [schemeSplit_http]
  simp only [urlParseAfterScheme, hfr, hqr, splitHostPath, htake, hdrop, hspace,
    Bool.false_eq_true, if_false]

lemma urlString_http (host path : List Char) :
    urlString ⟨("http").data, host, path, none, none⟩
      = ("http://").data ++ (host ++ path) := by
  simp [urlString, List.append_assoc]

lemma buildAgentCardURL_http (host path : List Char)
    (hhost : ∀ c ∈ host, hostOkChar c = true)
    (hpath : ∀ c ∈ path, pathOkChar c = true)
    (hstart : path = [] ∨ ∃ t, path = '/' :: t) :
    buildAgentCardURL (("http://").data ++ (host ++ path))
      = ("http://").data ++ (host ++ (trimSuffix path ['/'] ++ wellKnownSuffix)) := by
  have hpre : ∀ c ∈ ("http://").data, isGoSpace c = false := by decide
  have hsp : trimSpace (("http://").data ++ (host ++ path))
      = ("http://").data ++ (host ++ path) := by
    apply trimSpace_eq_self
    intro c hc
    rcases List.mem_append.mp hc with h | h
    · exact hpre c h
    · rcases List.mem_append.mp h with h | h
      · exact (hostOkChar_spec c (hhost c h)).2.1
      · exact (pathOkChar_spec c (hpath c h)).2.1
  simp only [buildAgentCardURL, hsp]
  rw [if_neg (by simp), if_pos (by simp [isPrefixOf_append_self])]
  rw [urlParse_http host path hhost hpath hstart]
  exact urlString_http host (trimSuffix path ['/'] ++ wellKnownSuffix)

/-- C1 amended: `BuildAgentCardURL` is not idempotent.  A single application
to a scheme-prefixed base (over hosts of ordinary URL characters) appends the
well-known suffix once, but re-applying it to its own output appends the
suffix a second time, so the double application differs from the single one. -/
theorem buildAgentCardURL_not_idempotent (host : List Char)
    (hhost : ∀ c ∈ host, hostOkChar c = true) :
    buildAgentCardURL (("http://").data ++ host)
        = ("http://").data ++ host ++ wellKnownSuffix ∧
    buildAgentCardURL (buildAgentCardURL (("http://").data ++ host))
        = buildAgentCardURL (("http://").data ++ host) ++ wellKnownSuffix ∧
    buildAgentCardURL (buildAgentCardURL (("http://").data ++ host))
        ≠ buildAgentCardURL (("http://").data ++ host) := by
  have h1 : buildAgentCardURL (("http://").data ++ host)
      = ("http://").data ++ (host ++ wellKnownSuffix) := by
    have h := buildAgentCardURL_http host [] hhost (by simp) (Or.inl rfl)
    simpa [show trimSuffix [] ['/'] = [] from rfl] using h
  have h2 : buildAgentCardURL (("http://").data ++ (host ++ wellKnownSuffix))
      = ("http://").data ++ (host ++ (wellKnownSuffix ++ wellKnownSuffix)) := by
    have h := buildAgentCardURL_http host wellKnownSuffix hhost (by decide)
      (Or.inr ⟨_, rfl⟩)
    rwa [show trimSuffix wellKnownSuffix ['/'] = wellKnownSuffix from by decide] at h
  refine ⟨?_, ?_, ?_⟩
  · rw [h1, List.append_assoc]
  · rw [h1, h2]
    simp [List.append_assoc]
  · rw [h1, h2]
    intro heq
    have hlen := congrArg List.length heq
    simp only [List.length_append] at hlen
    have hw : wellKnownSuffix.length = 23 := rfl
    omega

/-- C1 counterexample: at the concrete base `http://example.com`, one
application of `BuildAgentCardURL` appends the well-known suffix, and the
second application appends it again — `BuildAgentCardURL(BuildAgentCardURL x)`
differs from `BuildAgentCardURL x`, refuting idempotence. -/
theorem buildAgentCardURL_idempotent_cex :
    buildAgentCardURL (("http://example.com").data)
        = ("http://example.com/.well-known/agent.json").data ∧
    buildAgentCardURL (buildAgentCardURL (("http://example.com").data))
        = ("http://example.com/.well-known/agent.json/.well-known/agent.json").data ∧
    buildAgentCardURL (buildAgentCardURL (("http://example.com").data))
        ≠ buildAgentCardURL (("http://example.com").data) :=
  ⟨by decide, by decide, by decide⟩

theorem buildAgentCardURL_not_idempotent_witness :
    (∀ c ∈ ("agents.example.org").data, hostOkChar c = true) ∧
    buildAgentCardURL (("http://").data ++ ("agents.example.org").data)
        = ("http://").data ++ ("agents.example.org").data ++ wellKnownSuffix :=
  ⟨by decide, (buildAgentCardURL_not_idempotent ("agents.example.org").data (by decide)).1⟩

end Openribcage
